import Mathlib

/-!
Verification of the planning-poker estimation engine
(`planning_poker_supabase.py`): the card deck, the round evaluation in
`analyze_estimates`, the persistence step `save_estimates`, and the
session analytics from the analytics/reports tabs.

Numbers are modelled as exact rationals (the deck holds only integers and
one half, for which Python float arithmetic in the source — equality,
`min`, `max`, and the means arising in the claims — is exact).
-/

namespace PlanningPoker

/-- The numeric card deck (`self.fibonacci_cards` in the source). -/
def fibonacci_cards : List ℚ := [0, 1/2, 1, 2, 3, 5, 8, 13, 21, 34, 55, 89]

/-- The special tokens (`self.special_cards` in the source). -/
def special_cards : List String := ["?", "∞"]

/-- A raw estimate submitted for a participant: in the source it is either a
Python number (int or float, as selected from the deck widget) or a string. -/
inductive Raw where
  | num (q : ℚ)
  | str (s : String)
deriving DecidableEq, Repr

/-- Digit-string to natural number; `none` unless the character list is a
nonempty run of ASCII digits. -/
def digitsToNat (cs : List Char) : Option ℕ :=
  if cs ≠ [] ∧ cs.all Char.isDigit then
    some (cs.foldl (fun acc c => 10 * acc + (c.toNat - 48)) 0)
  else none

/-- Split a character list at every `'.'` (the char-level counterpart of
`splitOn "."`). -/
def splitDot : List Char → List (List Char)
  | [] => [[]]
  | c :: rest =>
    let r := splitDot rest
    if c = '.' then [] :: r
    else (c :: r.headI) :: r.tail

/-- Models Python `float(s)` / `pd.to_numeric(s, errors=..)` on the strings in
scope: an unsigned decimal numeral (digits, optionally one point between two
digit runs) parses to its exact rational value; anything else — in particular
the tokens `?` and `∞` and non-numeric words — yields `none` (Python raises,
pandas coerces to NaN). -/
def parseFloatStr (s : String) : Option ℚ :=
  match splitDot s.toList with
  | [w] => (digitsToNat w).map (fun n => (n : ℚ))
  | [w, f] =>
    match digitsToNat w, digitsToNat f with
    | some n, some m => some ((n : ℚ) + (m : ℚ) / (10 ^ f.length))
    | _, _ => none
  | _ => none

/-- `float(estimate)` on a raw entry: a number is itself, a string goes
through float parsing. -/
def tryFloat : Raw → Option ℚ
  | Raw.num q => some q
  | Raw.str s => parseFloatStr s

/-- The `estimate in ['?', '∞']` test of `analyze_estimates`: true exactly for
the two special-token strings (a Python number never equals a string). -/
def isSpecial : Raw → Bool
  | Raw.str s => decide (s ∈ special_cards)
  | Raw.num _ => false

/-- The classification loop of `analyze_estimates` (lines 425–432): each
entry goes to `special_estimates` if it is a special token, otherwise to
`numeric_estimates` when `float` succeeds, and is silently skipped when
`float` raises (`except: pass`). Order of both output lists follows input
order, as in the Python loop. -/
def numericSpecialSplit : List (String × Raw) → List (String × ℚ) × List (String × Raw)
  | [] => ([], [])
  | (p, e) :: rest =>
    let r := numericSpecialSplit rest
    if isSpecial e then (r.1, (p, e) :: r.2)
    else
      match tryFloat e with
      | some v => ((p, v) :: r.1, r.2)
      | none => r

/-- The numeric values of a batch, in submission order (`values` in the
source). -/
def numericValues (estimates : List (String × Raw)) : List ℚ :=
  (numericSpecialSplit estimates).1.map Prod.snd

/-- Python `min` over a nonempty list (0 on the empty list, which the source
never reaches under its `len > 1` guard). -/
def minList : List ℚ → ℚ
  | [] => 0
  | x :: xs => xs.foldl min x

/-- Python `max` over a nonempty list. -/
def maxList : List ℚ → ℚ
  | [] => 0
  | x :: xs => xs.foldl max x

/-- `np.mean(values)` as an exact rational. -/
def meanList (l : List ℚ) : ℚ := l.sum / l.length

/-- Outcome of one round, as decided by the control flow of
`analyze_estimates`: the consensus branch (all numeric values equal, taken
when more than one numeric value exists), the no-consensus branch carrying
the displayed minimum/maximum/mean, and the fall-through where fewer than two
numeric values exist and no check is performed. -/
inductive RoundResult where
  | Consensus (value : ℚ)
  | NoConsensus (lo hi mean : ℚ)
  | Inconclusive
deriving DecidableEq, Repr

/-- Round decision of `analyze_estimates` (lines 446–486, decision part
only): statistics and the consensus test run only under
`len(numeric_estimates) > 1`; consensus holds iff `set(values)` has one
element, in which case the committed value is `values[0]`. -/
def evaluateRound (estimates : List (String × Raw)) : RoundResult :=
  let values := numericValues estimates
  if 1 < values.length then
    if values.dedup.length = 1 then RoundResult.Consensus values.headI
    else RoundResult.NoConsensus (minList values) (maxList values) (meanList values)
  else RoundResult.Inconclusive

/-- Whether a result is the consensus outcome. -/
def isConsensus : RoundResult → Bool
  | RoundResult.Consensus _ => true
  | _ => false

/-- A participant record of the current session (fields used by
`save_estimates`). -/
structure Participant where
  id : ℕ
  name : String
deriving DecidableEq, Repr

/-- A user-story record (fields touched by the consensus update). -/
structure Story where
  id : ℕ
  status : String
  final_estimate : Option ℚ
  last_estimated_at : Option ℕ
deriving DecidableEq, Repr

/-- One row of the `estimates` table as built by `save_estimates`. -/
structure EstimateRow where
  session_id : ℕ
  story_id : ℕ
  participant_id : ℕ
  estimate : String
  estimated_at : ℕ
deriving DecidableEq, Repr

/-- Python `str()` on a card value: integers print without a point, the half
cards with `.5` (only integers and halves occur in the deck). -/
def pyStr (q : ℚ) : String :=
  if q.den = 1 then toString q.num
  else if q.den = 2 then toString (q.num / 2) ++ ".5"
  else toString q

/-- `str(estimate)` as stored in the estimate row. -/
def rawStr : Raw → String
  | Raw.num q => pyStr q
  | Raw.str s => s

/-- `PlanningPokerApp.save_estimates` (lines 123–148): for each submitted
(name, estimate) pair, look the name up among the session's participants
(first match, as `iloc[0]`); matching entries become estimate rows, entries
with no match are skipped. If any row was built it is inserted and the
call returns `True` (successful insert has non-empty `result.data`);
otherwise nothing is inserted and the call returns `False`. Returns the
inserted rows and the boolean result. -/
def save_estimates (session_id : ℕ) (participants : List Participant)
    (story_db_id : ℕ) (estimates_dict : List (String × Raw)) (now : ℕ) :
    List EstimateRow × Bool :=
  let estimates_data := estimates_dict.filterMap (fun pe =>
    match participants.find? (fun p => p.name == pe.1) with
    | some p => some { session_id := session_id, story_id := story_db_id,
                       participant_id := p.id, estimate := rawStr pe.2,
                       estimated_at := now }
    | none => none)
  (estimates_data, !estimates_data.isEmpty)

/-- Full effect of `analyze_estimates` (lines 420–486) on the store, with the
store's own writes assumed to succeed: only in the consensus branch is
`save_estimates` called, and only when it returns `True` is the story updated
to status `estimated` with `final_estimate = values[0]` and a fresh
timestamp. All other branches insert nothing and leave the story unchanged.
Returns (round outcome, inserted estimate rows, story after the call). -/
def analyze_estimates (session_id : ℕ) (participants : List Participant)
    (story : Story) (estimates : List (String × Raw)) (now : ℕ) :
    RoundResult × List EstimateRow × Story :=
  match evaluateRound estimates with
  | RoundResult.Consensus v =>
    let saved := save_estimates session_id participants story.id estimates now
    if saved.2 then
      (RoundResult.Consensus v, saved.1,
       { story with status := "estimated", final_estimate := some v,
                    last_estimated_at := some now })
    else (RoundResult.Consensus v, saved.1, story)
  | r => (r, [], story)

/-- A row of the enriched estimates frame (fields used by analytics). -/
structure EstimateRecord where
  participant_name : String
  estimate : String
deriving DecidableEq, Repr

/-- `PlanningPokerApp.get_estimates_df` (lines 150–181): a failing store
query is caught and surfaces as the empty frame. -/
def get_estimates_df (queryResult : Except String (List EstimateRecord)) :
    List EstimateRecord :=
  match queryResult with
  | Except.ok rows => rows
  | Except.error _ => []

/-- `pd.to_numeric(..., errors='coerce').dropna()`: the numeric-parseable
subset of the estimate strings, in order. -/
def numericSubset (estimates : List String) : List ℚ :=
  estimates.filterMap parseFloatStr

/-- Session-average metric of `render_analytics_tab` (lines 507–509): mean of
the numeric subset, `0` when that subset is empty. -/
def avg_estimate (estimates : List String) : ℚ :=
  let nums := numericSubset estimates
  if nums.isEmpty then 0 else meanList nums

/-- Mean over the numeric subset as pandas reports it: NaN (no data) on the
empty series, modelled as `none`. -/
def meanOpt (l : List ℚ) : Option ℚ :=
  if l.isEmpty then none else some (meanList l)

/-- `Series.median()`: sort, middle element for odd length, mean of the two
middle elements for even length, NaN (`none`) on the empty series. -/
def medianList (l : List ℚ) : Option ℚ :=
  let s := l.insertionSort (· ≤ ·)
  if s.length = 0 then none
  else if s.length % 2 = 1 then some (s.getD (s.length / 2) 0)
  else some ((s.getD (s.length / 2 - 1) 0 + s.getD (s.length / 2) 0) / 2)

/-- Summary statistics over a list of recorded estimate strings. -/
structure EstimateSummary where
  total : ℕ
  numericCount : ℕ
  meanVal : Option ℚ
  medianVal : Option ℚ
deriving DecidableEq, Repr

/-- `estimateSummary` as computed by `render_reports_tab` (lines 580–589):
raw total is the length of the whole frame, mean and median are taken over
the numeric-parseable subset only. -/
def estimateSummary (estimates : List String) : EstimateSummary :=
  let nums := numericSubset estimates
  { total := estimates.length, numericCount := nums.length,
    meanVal := meanOpt nums, medianVal := medianList nums }

/-- Distinct participant names of the estimate rows. -/
def dedupNames (rows : List (String × String)) : List String :=
  (rows.map Prod.fst).dedup

/-- Per-participant average of `render_analytics_tab` (lines 528–532):
group rows by participant name, take the mean of each group's
numeric-parseable estimates, and drop participants whose group has no
numeric value (`dropna`). -/
def perParticipantAverage (rows : List (String × String)) :
    List (String × ℚ) :=
  (dedupNames rows).filterMap (fun name =>
    let nums := numericSubset ((rows.filter (fun r => r.1 == name)).map Prod.snd)
    if nums.isEmpty then none else some (name, meanList nums))

/-- Story summary of `render_reports_tab` (lines 567–576): total stories,
estimated count, pending count, and total points (sum of `final_estimate`
over estimated stories, missing values contributing 0, as pandas `sum`). -/
def storySummary (stories : List Story) : ℕ × ℕ × ℕ × ℚ :=
  let est := stories.filter (fun s => s.status == "estimated")
  (stories.length, est.length, stories.length - est.length,
   (est.map (fun s => s.final_estimate.getD 0)).sum)

/-! ### Helper lemmas -/

lemma foldl_min_le_init (xs : List ℚ) (x : ℚ) : xs.foldl min x ≤ x := by
  induction xs generalizing x with
  | nil => exact le_refl x
  | cons a t ih => exact le_trans (ih (min x a)) (min_le_left x a)

lemma foldl_min_le_mem (xs : List ℚ) (x y : ℚ) (h : y ∈ xs) :
    xs.foldl min x ≤ y := by
  induction xs generalizing x with
  | nil => simp at h
  | cons a t ih =>
    rcases List.mem_cons.mp h with h | h
    · subst h
      exact le_trans (foldl_min_le_init t (min x y)) (min_le_right x y)
    · exact ih (min x a) h

lemma foldl_min_cases (xs : List ℚ) (x : ℚ) :
    xs.foldl min x = x ∨ xs.foldl min x ∈ xs := by
  induction xs generalizing x with
  | nil => exact Or.inl rfl
  | cons a t ih =>
    rcases ih (min x a) with h | h
    · rcases min_cases x a with ⟨hm, _⟩ | ⟨hm, _⟩
      · exact Or.inl (by rw [List.foldl_cons, h, hm])
      · exact Or.inr (by rw [List.foldl_cons, h, hm]; exact List.mem_cons_self a t)
    · exact Or.inr (List.mem_cons_of_mem a h)

lemma foldl_max_ge_init (xs : List ℚ) (x : ℚ) : x ≤ xs.foldl max x := by
  induction xs generalizing x with
  | nil => exact le_refl x
  | cons a t ih => exact le_trans (le_max_left x a) (ih (max x a))

lemma foldl_max_ge_mem (xs : List ℚ) (x y : ℚ) (h : y ∈ xs) :
    y ≤ xs.foldl max x := by
  induction xs generalizing x with
  | nil => simp at h
  | cons a t ih =>
    rcases List.mem_cons.mp h with h | h
    · subst h
      exact le_trans (le_max_right x y) (foldl_max_ge_init t (max x y))
    · exact ih (max x a) h

lemma foldl_max_cases (xs : List ℚ) (x : ℚ) :
    xs.foldl max x = x ∨ xs.foldl max x ∈ xs := by
  induction xs generalizing x with
  | nil => exact Or.inl rfl
  | cons a t ih =>
    rcases ih (max x a) with h | h
    · rcases max_cases x a with ⟨hm, _⟩ | ⟨hm, _⟩
      · exact Or.inl (by rw [List.foldl_cons, h, hm])
      · exact Or.inr (by rw [List.foldl_cons, h, hm]; exact List.mem_cons_self a t)
    · exact Or.inr (List.mem_cons_of_mem a h)

lemma minList_le (l : List ℚ) (y : ℚ) (h : y ∈ l) : minList l ≤ y := by
  cases l with
  | nil => simp at h
  | cons a t =>
    rcases List.mem_cons.mp h with h | h
    · exact h ▸ foldl_min_le_init t a
    · exact foldl_min_le_mem t a y h

lemma minList_mem (l : List ℚ) (h : l ≠ []) : minList l ∈ l := by
  cases l with
  | nil => exact absurd rfl h
  | cons a t =>
    rcases foldl_min_cases t a with hc | hc
    · simp only [minList, hc]
      exact List.mem_cons_self a t
    · exact List.mem_cons_of_mem a hc

lemma maxList_ge (l : List ℚ) (y : ℚ) (h : y ∈ l) : y ≤ maxList l := by
  cases l with
  | nil => simp at h
  | cons a t =>
    rcases List.mem_cons.mp h with h | h
    · exact h ▸ foldl_max_ge_init t a
    · exact foldl_max_ge_mem t a y h

lemma maxList_mem (l : List ℚ) (h : l ≠ []) : maxList l ∈ l := by
  cases l with
  | nil => exact absurd rfl h
  | cons a t =>
    rcases foldl_max_cases t a with hc | hc
    · simp only [maxList, hc]
      exact List.mem_cons_self a t
    · exact List.mem_cons_of_mem a hc

lemma all_eq_headI_of_dedup_length_one (l : List ℚ) (h : l.dedup.length = 1) :
    ∀ x ∈ l, x = l.headI := by
  obtain ⟨a, ha⟩ := List.length_eq_one.mp h
  intro x hx
  have hxa : x = a := by
    have : x ∈ l.dedup := List.mem_dedup.mpr hx
    rw [ha] at this
    simpa using this
  cases l with
  | nil => simp at hx
  | cons b t =>
    have hba : b = a := by
      have : b ∈ (b :: t).dedup := List.mem_dedup.mpr (List.mem_cons_self b t)
      rw [ha] at this
      simpa using this
    simp [hxa, hba]

lemma dedup_length_ne_one (l : List ℚ) (a b : ℚ) (ha : a ∈ l) (hb : b ∈ l)
    (hab : a ≠ b) : l.dedup.length ≠ 1 := by
  intro h
  have h1 := all_eq_headI_of_dedup_length_one l h a ha
  have h2 := all_eq_headI_of_dedup_length_one l h b hb
  exact hab (h1.trans h2.symm)

lemma consensus_value_unanimous (estimates : List (String × Raw)) (v : ℚ)
    (hres : evaluateRound estimates = RoundResult.Consensus v) :
    ∀ q ∈ numericValues estimates, q = v := by
  simp only [evaluateRound] at hres
  split_ifs at hres with h2 h1
  injection hres with hv
  intro q hq
  rw [← hv]
  exact all_eq_headI_of_dedup_length_one _ h1 q hq

lemma save_estimates_hit (session_id : ℕ) (participants : List Participant)
    (story_db_id : ℕ) (dict : List (String × Raw)) (now : ℕ)
    (hmatch : ∃ pe ∈ dict, ∃ p ∈ participants, p.name = pe.1) :
    (save_estimates session_id participants story_db_id dict now).1 ≠ [] ∧
    (save_estimates session_id participants story_db_id dict now).2 = true := by
  obtain ⟨pe, hpe, p, hp, hname⟩ := hmatch
  have hne : (save_estimates session_id participants story_db_id dict now).1 ≠ [] := by
    simp only [save_estimates]
    cases hfind : participants.find? (fun q => q.name == pe.1) with
    | none =>
      rw [List.find?_eq_none] at hfind
      exact absurd (by simpa using hname) (hfind p hp)
    | some p0 =>
      apply List.ne_nil_of_mem (a :=
        { session_id := session_id, story_id := story_db_id,
          participant_id := p0.id, estimate := rawStr pe.2, estimated_at := now })
      exact List.mem_filterMap.mpr ⟨pe, hpe, by rw [hfind]⟩
  refine ⟨hne, ?_⟩
  simp only [save_estimates] at hne ⊢
  simpa using hne


/-! ### Claim theorems -/

/-- C1 counterexample: in the batch `{A: 5, B: 5, C: '?'}` a special token is
present and all numeric submissions are equal, yet the round reaches the
consensus branch and yields `Consensus 5`, not `NoConsensus`: the consensus
test of `analyze_estimates` looks only at the numeric values, so a special
token does not prevent consensus. -/
theorem c1_counterexample :
    (numericSpecialSplit [("A", Raw.num 5), ("B", Raw.num 5), ("C", Raw.str "?")]).2 =
      [("C", Raw.str "?")] ∧
    evaluateRound [("A", Raw.num 5), ("B", Raw.num 5), ("C", Raw.str "?")] =
      RoundResult.Consensus 5 := by
  exact ⟨by decide, by decide⟩

/-- C1 amended: a special-token entry does not block consensus — whenever the
batch has more than one numeric entry and all numeric values are equal, the
round yields `Consensus` of that value, regardless of any special-token
entries in the batch. -/
theorem c1_amended_specials_do_not_block (estimates : List (String × Raw))
    (h2 : 1 < (numericValues estimates).length)
    (h1 : (numericValues estimates).dedup.length = 1) :
    evaluateRound estimates =
      RoundResult.Consensus (numericValues estimates).headI := by
  simp only [evaluateRound, if_pos h2, if_pos h1]

/-- Witness for C1 at `{A: 5, B: 5, C: '?'}`. -/
theorem c1_witness :
    1 < (numericValues [("A", Raw.num 5), ("B", Raw.num 5), ("C", Raw.str "?")]).length ∧
    (numericValues [("A", Raw.num 5), ("B", Raw.num 5), ("C", Raw.str "?")]).dedup.length = 1 ∧
    evaluateRound [("A", Raw.num 5), ("B", Raw.num 5), ("C", Raw.str "?")] =
      RoundResult.Consensus
        (numericValues [("A", Raw.num 5), ("B", Raw.num 5), ("C", Raw.str "?")]).headI :=
  ⟨by decide, by decide, c1_amended_specials_do_not_block _ (by decide) (by decide)⟩

/-- C2 counterexample: `4` is not a member of the canonical deck, yet a batch
estimating `4` twice completes with `Consensus 4` — no `InvalidCard` failure
exists; likewise a completely unparseable entry (`"abc"`) does not abort the
round naming the offender, the remaining entries still reach consensus. -/
theorem c2_counterexample :
    (4 : ℚ) ∉ fibonacci_cards ∧
    evaluateRound [("A", Raw.num 4), ("B", Raw.num 4)] = RoundResult.Consensus 4 ∧
    evaluateRound [("A", Raw.str "abc"), ("B", Raw.num 5), ("C", Raw.num 5)] =
      RoundResult.Consensus 5 := by
  refine ⟨by norm_num [fibonacci_cards], by decide, by decide⟩

/-- C2 amended: classification never fails — there is no deck-membership
check: an entry that is neither a special token nor float-parseable is
silently skipped (the round evaluates as if it were absent, no error names
the participant), and any float-parseable value, in the deck or not,
participates as numeric. -/
theorem c2_amended_invalid_entries_skipped (p s : String)
    (rest : List (String × Raw)) (hs : s ∉ special_cards)
    (hp : parseFloatStr s = none) :
    evaluateRound ((p, Raw.str s) :: rest) = evaluateRound rest := by
  have h : numericValues ((p, Raw.str s) :: rest) = numericValues rest := by
    simp [numericValues, numericSpecialSplit, isSpecial, hs, tryFloat, hp]
  simp only [evaluateRound, h]

/-- Witness for C2: the unparseable entry `"abc"` is skipped. -/
theorem c2_witness :
    "abc" ∉ special_cards ∧ parseFloatStr "abc" = none ∧
    evaluateRound [("C", Raw.str "abc"), ("A", Raw.num 5)] =
      evaluateRound [("A", Raw.num 5)] :=
  ⟨by decide, by decide,
   c2_amended_invalid_entries_skipped "C" "abc" _ (by decide) (by decide)⟩

/-- C3 counterexample: the empty batch does not fail with an `EmptyRound`
error — the source has no such check: `analyze_estimates` on `{}` runs to
completion, producing the inconclusive no-op outcome (no statistics, no
consensus, nothing persisted, story untouched). -/
theorem c3_counterexample :
    analyze_estimates 1 [] ⟨1, "pending", none, none⟩ [] 0 =
      (RoundResult.Inconclusive, [], ⟨1, "pending", none, none⟩) := by
  decide

/-- C3 amended: evaluating the empty batch is not an error: the round falls
through every guard, yields the inconclusive outcome, inserts no estimate
row and leaves the story unchanged. -/
theorem c3_amended_empty_round_noop (sid : ℕ) (participants : List Participant)
    (story : Story) (now : ℕ) :
    analyze_estimates sid participants story [] now =
      (RoundResult.Inconclusive, [], story) := by
  simp [analyze_estimates, evaluateRound, numericValues, numericSpecialSplit]

/-- Witness for C3 at concrete arguments. -/
theorem c3_witness :
    analyze_estimates 9 [⟨1, "A"⟩] ⟨2, "pending", none, none⟩ [] 5 =
      (RoundResult.Inconclusive, [], ⟨2, "pending", none, none⟩) :=
  c3_amended_empty_round_noop 9 [⟨1, "A"⟩] ⟨2, "pending", none, none⟩ 5

/-- C4: whenever the numeric subset of the batch has fewer than two entries,
the consensus check is skipped and the round is inconclusive — in particular
it is never the consensus outcome. -/
theorem c4_few_numeric_inconclusive (estimates : List (String × Raw))
    (h : (numericValues estimates).length < 2) :
    evaluateRound estimates = RoundResult.Inconclusive ∧
    isConsensus (evaluateRound estimates) = false := by
  have hr : evaluateRound estimates = RoundResult.Inconclusive := by
    simp only [evaluateRound]
    rw [if_neg]
    omega
  exact ⟨hr, by rw [hr]; rfl⟩

/-- Witness for C4 at the single-entry batch `{A: 2}`. -/
theorem c4_witness :
    (numericValues [("A", Raw.num 2)]).length < 2 ∧
    evaluateRound [("A", Raw.num 2)] = RoundResult.Inconclusive ∧
    isConsensus (evaluateRound [("A", Raw.num 2)]) = false :=
  ⟨by decide, (c4_few_numeric_inconclusive _ (by decide)).1,
   (c4_few_numeric_inconclusive [("A", Raw.num 2)] (by decide)).2⟩

/-- C5 counterexample: the batch `{A: 3, B: 8}` (both names matching session
participants) ends in `NoConsensus`, and `analyze_estimates` persists NO
estimate rows at all — `save_estimates` is called only inside the consensus
branch, so history does not accumulate on `NoConsensus`/`Inconclusive`
rounds. (The story is indeed left unchanged, as the claim also says.) -/
theorem c5_counterexample :
    evaluateRound [("A", Raw.num 3), ("B", Raw.num 8)] =
      RoundResult.NoConsensus 3 8 (11/2) ∧
    analyze_estimates 1 [⟨1, "A"⟩, ⟨2, "B"⟩] ⟨7, "pending", none, none⟩
        [("A", Raw.num 3), ("B", Raw.num 8)] 0 =
      (RoundResult.NoConsensus 3 8 (11/2), [], ⟨7, "pending", none, none⟩) := by
  have hval : numericValues [("A", Raw.num 3), ("B", Raw.num 8)] = [3, 8] := by decide
  have hded : List.dedup [(3:ℚ), 8] = [3, 8] := by norm_num
  have h : evaluateRound [("A", Raw.num 3), ("B", Raw.num 8)] =
      RoundResult.NoConsensus 3 8 (11/2) := by
    simp only [evaluateRound, hval, hded]
    norm_num [minList, maxList, meanList]
  exact ⟨h, by simp only [analyze_estimates, h]⟩

/-- C5 amended: on every round whose outcome is not consensus (`NoConsensus`
or `Inconclusive`), nothing is persisted: no estimate row is inserted (the
insert happens only in the consensus branch) and the story — its status and
`final_estimate` included — is returned unchanged. -/
theorem c5_amended_no_persistence_without_consensus (sid : ℕ)
    (participants : List Participant) (story : Story)
    (estimates : List (String × Raw)) (now : ℕ)
    (h : isConsensus (evaluateRound estimates) = false) :
    analyze_estimates sid participants story estimates now =
      (evaluateRound estimates, [], story) := by
  cases hres : evaluateRound estimates with
  | Consensus v => rw [hres] at h; simp [isConsensus] at h
  | NoConsensus lo hi m => simp [analyze_estimates, hres]
  | Inconclusive => simp [analyze_estimates, hres]

/-- Witness for C5 at the no-consensus batch `{A: 3, B: 8}`. -/
theorem c5_witness :
    isConsensus (evaluateRound [("A", Raw.num 3), ("B", Raw.num 8)]) = false ∧
    analyze_estimates 2 [⟨1, "A"⟩, ⟨2, "B"⟩] ⟨8, "pending", none, none⟩
        [("A", Raw.num 3), ("B", Raw.num 8)] 4 =
      (evaluateRound [("A", Raw.num 3), ("B", Raw.num 8)], [],
        ⟨8, "pending", none, none⟩) :=
  ⟨by decide, c5_amended_no_persistence_without_consensus 2 _ _ _ 4 (by decide)⟩

/-- C6: when the round reaches `Consensus v` and the submitted names match
the session's participants (as they do in the app, whose batch is built from
the participant list), the story is updated to status `estimated` with
`final_estimate = v` and the fresh timestamp, and `v` is the unanimous
numeric value: every numeric value of the batch equals it. -/
theorem c6_consensus_finalizes_story (sid : ℕ) (participants : List Participant)
    (story : Story) (estimates : List (String × Raw)) (now : ℕ) (v : ℚ)
    (hres : evaluateRound estimates = RoundResult.Consensus v)
    (hmatch : ∃ pe ∈ estimates, ∃ p ∈ participants, p.name = pe.1) :
    (analyze_estimates sid participants story estimates now).2.2 =
      { story with status := "estimated", final_estimate := some v,
                   last_estimated_at := some now } ∧
    ∀ q ∈ numericValues estimates, q = v := by
  have hsave := save_estimates_hit sid participants story.id estimates now hmatch
  constructor
  · simp only [analyze_estimates, hres, hsave.2, if_true]
  · exact consensus_value_unanimous estimates v hres

/-- Witness for C6 at the unanimous batch `{A: 5, B: 5}`. -/
theorem c6_witness :
    evaluateRound [("A", Raw.num 5), ("B", Raw.num 5)] = RoundResult.Consensus 5 ∧
    (analyze_estimates 1 [⟨1, "A"⟩, ⟨2, "B"⟩] ⟨7, "pending", none, none⟩
        [("A", Raw.num 5), ("B", Raw.num 5)] 0).2.2 =
      ⟨7, "estimated", some 5, some 0⟩ ∧
    ∀ q ∈ numericValues [("A", Raw.num 5), ("B", Raw.num 5)], q = 5 :=
  have h := c6_consensus_finalizes_story 1 [⟨1, "A"⟩, ⟨2, "B"⟩]
    ⟨7, "pending", none, none⟩ [("A", Raw.num 5), ("B", Raw.num 5)] 0 5
    (by decide) (by decide)
  ⟨by decide, h.1, h.2⟩

/-- C7: a batch with at least two numeric entries that do not all agree ends
in `NoConsensus` carrying the exact minimum, maximum and arithmetic mean
(sum over count) of the numeric subset only: the carried bounds really are
members of and bounds for the numeric values, and the mean is the exact
quotient — rounding to one decimal happens only in the display format
string, not in these values. -/
theorem c7_disagreement_stats (estimates : List (String × Raw))
    (h2 : 1 < (numericValues estimates).length)
    (hne : ∃ a ∈ numericValues estimates, ∃ b ∈ numericValues estimates, a ≠ b) :
    evaluateRound estimates =
      RoundResult.NoConsensus (minList (numericValues estimates))
        (maxList (numericValues estimates)) (meanList (numericValues estimates)) ∧
    meanList (numericValues estimates) =
      (numericValues estimates).sum / (numericValues estimates).length ∧
    minList (numericValues estimates) ∈ numericValues estimates ∧
    maxList (numericValues estimates) ∈ numericValues estimates ∧
    ∀ q ∈ numericValues estimates,
      minList (numericValues estimates) ≤ q ∧ q ≤ maxList (numericValues estimates) := by
  obtain ⟨a, ha, b, hb, hab⟩ := hne
  have hd := dedup_length_ne_one _ a b ha hb hab
  have hnil : numericValues estimates ≠ [] := by
    intro h
    rw [h] at ha
    simp at ha
  refine ⟨?_, rfl, minList_mem _ hnil, maxList_mem _ hnil, ?_⟩
  · simp only [evaluateRound, if_pos h2, if_neg hd]
  · exact fun q hq => ⟨minList_le _ q hq, maxList_ge _ q hq⟩

/-- Witness for C7 at `{A: 3, B: 8}`: min 3, max 8, exact mean 11/2 = 5.5. -/
theorem c7_witness :
    1 < (numericValues [("A", Raw.num 3), ("B", Raw.num 8)]).length ∧
    evaluateRound [("A", Raw.num 3), ("B", Raw.num 8)] =
      RoundResult.NoConsensus
        (minList (numericValues [("A", Raw.num 3), ("B", Raw.num 8)]))
        (maxList (numericValues [("A", Raw.num 3), ("B", Raw.num 8)]))
        (meanList (numericValues [("A", Raw.num 3), ("B", Raw.num 8)])) ∧
    minList (numericValues [("A", Raw.num 3), ("B", Raw.num 8)]) = 3 ∧
    maxList (numericValues [("A", Raw.num 3), ("B", Raw.num 8)]) = 8 ∧
    meanList (numericValues [("A", Raw.num 3), ("B", Raw.num 8)]) = 11/2 := by
  have hval : numericValues [("A", Raw.num 3), ("B", Raw.num 8)] = [3, 8] := by decide
  refine ⟨by decide, (c7_disagreement_stats _ (by decide) (by decide)).1,
    by decide, by decide, ?_⟩
  rw [hval]
  norm_num [meanList]

/-- C8: the estimate summary counts every recorded entry in the raw total but
computes mean and median over the numeric-parseable subset only: both special
tokens parse to nothing, prepending one to any estimate list raises the raw
count by one while leaving numeric count, mean and median untouched; over
`['5','8','?']` the summary is raw count 3, numeric count 2, mean 13/2 = 6.5
and median 13/2 = 6.5. -/
theorem c8_estimate_summary :
    estimateSummary ["5", "8", "?"] =
      { total := 3, numericCount := 2, meanVal := some (13/2),
        medianVal := some (13/2) } ∧
    (∀ s ∈ special_cards, parseFloatStr s = none) ∧
    ∀ (l : List String), ∀ s ∈ special_cards,
      (estimateSummary (s :: l)).total = (estimateSummary l).total + 1 ∧
      (estimateSummary (s :: l)).numericCount = (estimateSummary l).numericCount ∧
      (estimateSummary (s :: l)).meanVal = (estimateSummary l).meanVal ∧
      (estimateSummary (s :: l)).medianVal = (estimateSummary l).medianVal := by
  refine ⟨?_, by decide, ?_⟩
  · have h5 : parseFloatStr "5" = some 5 := by decide
    have h8 : parseFloatStr "8" = some 8 := by decide
    have hq : parseFloatStr "?" = none := by decide
    have hsub : numericSubset ["5", "8", "?"] = [5, 8] := by
      simp [numericSubset, List.filterMap_cons, h5, h8, hq]
    have hsort : List.insertionSort (· ≤ ·) [(5:ℚ), 8] = [5, 8] := by
      norm_num [List.insertionSort, List.orderedInsert]
    simp only [estimateSummary, hsub, meanOpt, meanList, medianList, hsort]
    norm_num [List.getD]
  · intro l s hs
    have hnone : parseFloatStr s = none := by
      rcases List.mem_cons.mp hs with h | h
      · rw [h]; decide
      · rcases List.mem_cons.mp h with h | h
        · rw [h]; decide
        · simp at h
    have hsub : numericSubset (s :: l) = numericSubset l := by
      simp [numericSubset, List.filterMap_cons, hnone]
    refine ⟨by simp [estimateSummary], ?_, ?_, ?_⟩ <;>
      simp [estimateSummary, hsub]

/-- Witness for C8: the concrete `['5','8','?']` summary, via the theorem. -/
theorem c8_witness :
    estimateSummary ["5", "8", "?"] =
      { total := 3, numericCount := 2, meanVal := some (13/2),
        medianVal := some (13/2) } :=
  c8_estimate_summary.1

/-- C9: the analytics are total and degrade to defined "no data" values
instead of failing: a failed store query surfaces as the empty estimate
frame; an input whose numeric-parseable subset is empty yields average 0
(the analytics-tab sentinel) and `none` (NaN) mean/median; per-participant
averages over rows with no parseable value drop every group rather than
erring; and the story/estimate summaries of an empty store are the all-zero
and all-`none` records. -/
theorem c9_analytics_total :
    (∀ msg : String, get_estimates_df (Except.error msg) = []) ∧
    (∀ estimates : List String, numericSubset estimates = [] →
      avg_estimate estimates = 0 ∧
      (estimateSummary estimates).meanVal = none ∧
      (estimateSummary estimates).medianVal = none) ∧
    (∀ rows : List (String × String), (∀ r ∈ rows, parseFloatStr r.2 = none) →
      perParticipantAverage rows = []) ∧
    storySummary [] = (0, 0, 0, 0) ∧
    estimateSummary [] =
      { total := 0, numericCount := 0, meanVal := none, medianVal := none } := by
  refine ⟨fun msg => rfl, ?_, ?_, by decide, by decide⟩
  · intro l h
    refine ⟨by simp [avg_estimate, h], ?_, ?_⟩ <;>
      simp [estimateSummary, h, meanOpt, medianList, List.insertionSort]
  · intro rows h
    simp only [perParticipantAverage]
    apply List.filterMap_eq_nil_iff.mpr
    intro name hname
    have hsub : numericSubset
        ((rows.filter (fun r => r.1 == name)).map Prod.snd) = [] := by
      apply List.filterMap_eq_nil_iff.mpr
      intro x hx
      obtain ⟨r, hr, hrx⟩ := List.mem_map.mp hx
      exact hrx ▸ h r (List.mem_of_mem_filter hr)
    simp [hsub]

/-- Witness for C9 at failing and all-special inputs. -/
theorem c9_witness :
    get_estimates_df (Except.error "connection refused") = [] ∧
    avg_estimate ["?", "∞"] = 0 ∧
    (estimateSummary ["?", "∞"]).meanVal = none ∧
    (estimateSummary ["?", "∞"]).medianVal = none ∧
    perParticipantAverage [("A", "?"), ("B", "∞")] = [] :=
  ⟨c9_analytics_total.1 "connection refused",
   (c9_analytics_total.2.1 ["?", "∞"] (by decide)).1,
   (c9_analytics_total.2.1 ["?", "∞"] (by decide)).2.1,
   (c9_analytics_total.2.1 ["?", "∞"] (by decide)).2.2,
   c9_analytics_total.2.2.1 [("A", "?"), ("B", "∞")] (by decide)⟩

/-- C10: `save_estimates` inserts a row only for entries whose name matches a
participant of the session (the row carries that participant's id); when no
entry matches — the empty batch included — nothing is inserted and the call
returns `False`; and whenever no rows were built the return value is
`False`. Non-matching entries are simply skipped: no error path exists. -/
theorem c10_save_matching_only (sid : ℕ) (participants : List Participant)
    (story_db_id : ℕ) (dict : List (String × Raw)) (now : ℕ) :
    (∀ row ∈ (save_estimates sid participants story_db_id dict now).1,
      ∃ pe ∈ dict, ∃ p ∈ participants, p.name = pe.1 ∧ row.participant_id = p.id) ∧
    ((∀ pe ∈ dict, ∀ p ∈ participants, p.name ≠ pe.1) →
      save_estimates sid participants story_db_id dict now = ([], false)) ∧
    ((save_estimates sid participants story_db_id dict now).1 = [] →
      (save_estimates sid participants story_db_id dict now).2 = false) := by
  refine ⟨?_, ?_, ?_⟩
  · intro row hrow
    simp only [save_estimates] at hrow
    obtain ⟨pe, hpe, hf⟩ := List.mem_filterMap.mp hrow
    cases hfind : participants.find? (fun q => q.name == pe.1) with
    | none => rw [hfind] at hf; simp at hf
    | some p0 =>
      rw [hfind] at hf
      have hmem := List.mem_of_find?_eq_some hfind
      have hname : p0.name = pe.1 := by simpa using List.find?_some hfind
      refine ⟨pe, hpe, p0, hmem, hname, ?_⟩
      cases hf
      rfl
  · intro h
    have hall : ∀ pe ∈ dict,
        (participants.find? (fun q => q.name == pe.1)) = none := by
      intro pe hpe
      apply List.find?_eq_none.mpr
      intro p hp
      simpa using h pe hpe p hp
    simp only [save_estimates]
    have hnil : dict.filterMap (fun pe =>
        match participants.find? (fun q => q.name == pe.1) with
        | some p => some ({ session_id := sid, story_id := story_db_id,
                            participant_id := p.id, estimate := rawStr pe.2,
                            estimated_at := now } : EstimateRow)
        | none => none) = [] := by
      apply List.filterMap_eq_nil_iff.mpr
      intro pe hpe
      rw [hall pe hpe]
    rw [hnil]
    rfl
  · intro h
    simp only [save_estimates] at h ⊢
    rw [h]
    rfl

/-- Witness for C10: one matching and one non-matching entry, and the empty
batch. -/
theorem c10_witness :
    save_estimates 1 [⟨1, "A"⟩] 7 [("A", Raw.num 5), ("X", Raw.num 3)] 0 =
      ([⟨1, 7, 1, "5", 0⟩], true) ∧
    save_estimates 1 [⟨1, "A"⟩] 7 [] 0 = ([], false) ∧
    ∀ row ∈ (save_estimates 1 [⟨1, "A"⟩] 7 [("A", Raw.num 5), ("X", Raw.num 3)] 0).1,
      ∃ pe ∈ [("A", Raw.num 5), ("X", Raw.num 3)], ∃ p ∈ [(⟨1, "A"⟩ : Participant)],
        p.name = pe.1 ∧ row.participant_id = p.id :=
  ⟨by decide, by decide,
   (c10_save_matching_only 1 [⟨1, "A"⟩] 7 [("A", Raw.num 5), ("X", Raw.num 3)] 0).1⟩

end PlanningPoker
